import Mathlib

/-!
Verification development for the dependency-graph analyzer.

The Python sources are shallowly embedded:
- Python strings are Lean `String`s; the string methods used by the code
  (`split`, `join`, `startswith`, `endswith`, slicing, `in`, `capitalize`,
  `upper`, `len`) are modelled character-exactly by the `py*` helpers below,
  since Python strings are sequences of characters.
- Python dicts are insertion-ordered association lists with unique keys;
  `dictGet` is key lookup, `dictInsert` is `d[k] = v` (update in place keeps
  the position of an existing key).
- Python sets are modelled as duplicate-free lists in insertion order;
  `setAdd` is `set.add` (membership test by `==`, i.e. dataclass equality).
- The filesystem seen by `os.listdir` / `os.path.isdir` / `os.path.exists`
  is a finite tree `FSTree`; `children` lists entries in `os.listdir` order.
- Logging is not modelled (it never influences control flow or data).
-/

/-- Python `s.split(sep)` for a one-character separator, on character lists:
keeps empty fields, never returns an empty list. -/
def splitOnChar (sep : Char) : List Char → List (List Char)
  | [] => [[]]
  | c :: cs =>
      let r := splitOnChar sep cs
      if c = sep then [] :: r
      else
        match r with
        | [] => [[c]]
        | h :: t => (c :: h) :: t

/-- Python `s.split(sep)` for a one-character separator. -/
def pySplit (sep : Char) (s : String) : List String :=
  (splitOnChar sep s.data).map String.mk

/-- Python `sep.join(l)`. -/
def pyJoin (sep : String) : List String → String
  | [] => ""
  | a :: as => as.foldl (fun acc x => acc ++ sep ++ x) a

/-- Python `s.startswith(p)`. -/
def pyStarts (s p : String) : Bool := p.data.isPrefixOf s.data

/-- Python `s.endswith(p)`. -/
def pyEndsWith (s p : String) : Bool := p.data.isSuffixOf s.data

/-- Python `s[n:]` (character-based slicing). -/
def pyDrop (s : String) (n : Nat) : String := ⟨s.data.drop n⟩

/-- Python `len(s)` (number of characters). -/
def pyLen (s : String) : Nat := s.data.length

/-- Python `c in s` for a one-character `c` (substring test degenerates to
character membership). -/
def pyContainsChar (s : String) (c : Char) : Bool := s.data.contains c

/-- Python `s.capitalize()`: first character uppercased, the rest lowercased
(ASCII-faithful). -/
def pyCapitalize (s : String) : String :=
  match s.data with
  | [] => ""
  | c :: cs => ⟨c.toUpper :: cs.map Char.toLower⟩

/-- Python `s.upper()` (ASCII-faithful). -/
def pyUpper (s : String) : String := ⟨s.data.map Char.toUpper⟩

/-- Lookup in a Python dict modelled as an association list
(`d[k]` / `k in d`): the value of the unique pair whose key is `k`. -/
def dictGet {α : Type} (d : List (String × α)) (k : String) : Option α :=
  (d.find? (fun kv => kv.1 == k)).map Prod.snd

/-- Python `d[k] = v` on an insertion-ordered dict: an existing key keeps its
position and gets the new value, a fresh key is appended at the end. -/
def dictInsert (d : List (String × String)) (k v : String) : List (String × String) :=
  if d.any (fun kv => kv.1 == k) then
    d.map (fun kv => if kv.1 == k then (k, v) else kv)
  else d ++ [(k, v)]

/-- The `PythonModule` dataclass from `src/core/python_module.py`. -/
structure PythonModule where
  file_path : String
  module_name : String
  cluster : Option String := none
  imported_modules : List (String × List String) := []
deriving DecidableEq

/-- The `__eq__` generated for the `PythonModule` dataclass: the decorator
compares the tuple of all four fields (defining `__hash__` by hand does not
replace the generated `__eq__`). -/
def pythonModuleEq (a b : PythonModule) : Bool :=
  a.file_path == b.file_path && a.module_name == b.module_name &&
    a.cluster == b.cluster && a.imported_modules == b.imported_modules

/-- The hand-written `PythonModule.__hash__`: `hash(self.file_path)`. -/
def pythonModuleHashKey (m : PythonModule) : String := m.file_path

/-- The `Dependency` dataclass from `src/core/dependency.py`, as stored in
`ProjectAnalyzer.dependencies`. In Python, `source_module` and `target_module`
are references to the shared per-path `PythonModule` objects; the registry
maps each file path to exactly one object and `file_path` never changes, so a
reference is represented here by the file path of the referenced module.
Dataclass equality on `Dependency` compares the two referenced modules
field by field together with `imported_objects`; with one object per path this
is exactly equality of the two paths and of the symbol list, which is the
derived equality of this structure. -/
structure Dependency where
  source_module : String
  target_module : String
  imported_objects : List String
deriving DecidableEq

/-- The hand-written `Dependency.__hash__`:
`hash((source_module.file_path, target_module.file_path))`. -/
def dependencyHashKey (d : Dependency) : String × String :=
  (d.source_module, d.target_module)

/-- An `ast.ImportFrom` node, reduced to the parts `ImportVisitor` reads:
`node.module` (the dotted name after `from`, absent in `from . import x`),
the alias names `node.names` (each `name.name`), and `node.level` (number of
leading dots, 0 for absolute imports). -/
structure ImportFromNode where
  module : Option String
  names : List String
  level : Nat

/-- `ImportVisitor.visit_Import` from `src/include/import_visitor.py`: one
record per imported name, with an empty symbol list. -/
def visit_Import (node_names : List String) : List (String × List String) :=
  node_names.map (fun n => (n, []))

/-- `ImportVisitor.visit_ImportFrom` from `src/include/import_visitor.py`:
the records this node appends to `self.imports`. The final branch is only
reachable with `node.module` present (the Python grammar guarantees a module
name for absolute from-imports), so the `none` case there appends nothing. -/
def visit_ImportFrom (module_name : String) (node : ImportFromNode) :
    List (String × List String) :=
  if node.module = none ∧ node.level > 0 then
    let parts := pySplit '.' module_name
    if node.level ≤ parts.length then
      let parent_module := pyJoin "." (parts.take (parts.length - node.level))
      node.names.foldl
        (fun acc n =>
          if n = "*" then acc
          else if parent_module ≠ "" then acc ++ [(parent_module ++ "." ++ n, [])]
          else acc ++ [(n, [])])
        []
    else []
  else if node.level > 0 then
    let parts := pySplit '.' module_name
    if node.level ≤ parts.length then
      let parent_module := pyJoin "." (parts.take (parts.length - node.level))
      let imported_objects := node.names.filter (fun n => n ≠ "*")
      match node.module with
      | some m =>
          if parent_module ≠ "" then [(parent_module ++ "." ++ m, imported_objects)]
          else [(m, imported_objects)]
      | none => [(parent_module, imported_objects)]
    else []
  else
    match node.module with
    | some m => [(m, node.names.filter (fun n => n ≠ "*"))]
    | none => []

/-- The candidate names collected by `ProjectAnalyzer.resolve_import`: every
registered name that continues the reference after a dot, or that the
reference continues after a dot. -/
def possible_modules {α : Type} (module_by_name : List (String × α))
    (imported_module_name : String) : List String :=
  (module_by_name.map Prod.fst).filter
    (fun name =>
      pyStarts name (imported_module_name ++ ".") ||
        pyStarts imported_module_name (name ++ "."))

/-- Python `max(p :: ps, key=len)`: the first element of maximal length
(`max` only replaces the current best on a strict increase). -/
def pyMaxLen (p : String) (ps : List String) : String :=
  ps.foldl (fun acc x => if pyLen acc < pyLen x then x else acc) p

/-- `ProjectAnalyzer.resolve_import` from `src/core/project_analyzer.py`,
generic in what the by-name dict stores (the code only reads keys and returns
the stored value). -/
def resolve_import {α : Type} (module_by_name : List (String × α))
    (imported_module_name : String) : Option α :=
  match dictGet module_by_name imported_module_name with
  | some m => some m
  | none =>
      match possible_modules module_by_name imported_module_name with
      | [] => none
      | p :: ps => dictGet module_by_name (pyMaxLen p ps)

/-- Python `self.dependencies.add(d)`: a set keeps the first of two equal
elements. -/
def setAdd (deps : List Dependency) (d : Dependency) : List Dependency :=
  if d ∈ deps then deps else deps ++ [d]

/-- `ProjectAnalyzer.analyze_imports` from `src/core/project_analyzer.py`.
`src p` models the body of the `try` up to `visitor.imports`
(`open(p).read()`, `ast.parse`, visiting the tree with the `ImportVisitor`
of the module registered at path `p`): `some recs` is the extracted import
list, `none` is any exception caught by the handlers — `SyntaxError` at
`ast.parse`, an I/O error, or the `TypeError` of the visitor construction
itself. In this source the `some` branch is in fact unreachable: line 149
builds `ImportVisitor(module.module_name)` without the `logger` argument
that `ImportVisitor.__init__` requires, so every module's extraction raises
`TypeError` and a real run is exactly the `src = fun _ => none` instance
(see `srcC1` and claim C1). `src` is kept general so the resolution and
accumulation code of lines 154-164 is modelled as written and theorems over
every `src` cover the real run as a special case. `src` is a function
because file contents and module names do not change during analysis. The
state is the insertion-ordered module list `self.modules.values()` (each
module keyed by its unique `file_path`), the name index
`self.module_by_name` (mapping a name to the path of the referenced module
object), and the dependency set. -/
def analyze_imports (src : String → Option (List (String × List String)))
    (module_by_name : List (String × String)) :
    List PythonModule → List Dependency → List PythonModule × List Dependency
  | [], deps => ([], deps)
  | m :: rest, deps =>
      match src m.file_path with
      | none =>
          let r := analyze_imports src module_by_name rest deps
          (m :: r.1, r.2)
      | some recs =>
          let deps1 := recs.foldl
            (fun ds ri =>
              match resolve_import module_by_name ri.1 with
              | some target => setAdd ds ⟨m.file_path, target, ri.2⟩
              | none => ds)
            deps
          let r := analyze_imports src module_by_name rest deps1
          ({ m with imported_modules := recs } :: r.1, r.2)

/-- A directory tree as observed through `os.listdir`, `os.path.isdir` and
`os.path.exists`; `children` lists the entries of a directory in `os.listdir`
order (a filesystem gives distinct names, the type does not enforce it). -/
inductive FSTree where
  | file (name : String)
  | dir (name : String) (children : List FSTree)

/-- Name of a filesystem entry. -/
def FSTree.name : FSTree → String
  | .file n => n
  | .dir n _ => n

/-- Children of a directory; a plain file has none. -/
def FSTree.children : FSTree → List FSTree
  | .file _ => []
  | .dir _ cs => cs

/-- Python `os.path.isdir`. -/
def FSTree.isDir : FSTree → Bool
  | .file _ => false
  | .dir _ _ => true

/-- Python `os.path.exists(os.path.join(t, "__init__.py"))`. -/
def hasInitFile (t : FSTree) : Bool :=
  t.children.any (fun c => c.name == "__init__.py")

/-- The body of the services loop in
`ProjectDetector.detect_project_structure`: each subdirectory of the services
directory that contains an initializer becomes a cluster keyed by the
compound prefix and named by upper-casing its name. -/
def servicesStep (itemName : String) (acc : List (String × String))
    (service : FSTree) : List (String × String) :=
  if service.isDir && hasInitFile service then
    dictInsert acc (itemName ++ "/" ++ service.name) (pyUpper service.name)
  else acc

/-- The body of the cluster-inference loop in
`ProjectDetector.detect_project_structure` (lines 69-90 of
`src/core/project_detector.py`), for a single `os.listdir` entry of the root
package. Note the source checks `item.startswith("_")` before the
`item == "services" or item == "_services"` test. -/
def clusterStep (acc : List (String × String)) (item : FSTree) :
    List (String × String) :=
  if item.isDir && hasInitFile item then
    if pyStarts item.name "_" then
      dictInsert acc item.name (pyCapitalize (pyDrop item.name 1))
    else if item.name = "services" ∨ item.name = "_services" then
      item.children.foldl (servicesStep item.name) acc
    else acc
  else acc

/-- The cluster-inference phase of `ProjectDetector.detect_project_structure`:
fold the loop body over the entries of the root package directory, starting
from the default mapping. -/
def build_cluster_mappings (root_package_dir : FSTree) : List (String × String) :=
  root_package_dir.children.foldl clusterStep [("", "Root")]

/-- Python `sum(1 for f in os.listdir(pkg_path) if f.endswith(".py"))`. -/
def countPyFiles (pkg : FSTree) : Nat :=
  (pkg.children.filter (fun f => pyEndsWith f.name ".py")).length

/-- The root-package selection phase of
`ProjectDetector.detect_project_structure`: a unique initializer-bearing
directory wins; among several, the first strict maximum of directly contained
`.py` entries wins; with none (or all counts zero) the name of the project
root itself is used. -/
def choose_root_package (project_root : FSTree) : String :=
  let possible := project_root.children.filter (fun c => c.isDir && hasInitFile c)
  let chosen : Option String :=
    match possible with
    | [p] => some p.name
    | _ :: _ :: _ =>
        (possible.foldl
          (fun acc pkg =>
            if acc.1 < countPyFiles pkg then (countPyFiles pkg, some pkg.name)
            else acc)
          ((0 : Nat), (none : Option String))).2
    | [] => none
  match chosen with
  | some r => r
  | none => project_root.name

/-- The `ProjectStructure` from `src/core/project_structure.py`, restricted to
the fields the analysis reads. `CLUSTER_COLORS` and `cluster_order` are
rendering data; `cluster_order` is additionally built from a Python set whose
iteration order is interpreter-dependent, and no claim concerns either. -/
structure ProjectStructure where
  root_package_name : String
  cluster_mappings : List (String × String)

/-- `ProjectDetector.detect_project_structure` from
`src/core/project_detector.py`: choose the root package, then infer clusters
from its subdirectories when it exists on disk. One divergence: when the
chosen root-package name exists only as a plain file — possible through the
basename fallback, if the project root directory carries the same name as a
plain file among its children — Python passes the `os.path.exists` check and
then crashes with `NotADirectoryError` from `os.listdir`, while this
definition returns the default mapping. The divergence is confined to that
crashing branch; every theorem below about detection either goes through
`build_cluster_mappings` directly or chooses a root package that is a
directory. -/
def detect_project_structure (project_root : FSTree) : ProjectStructure :=
  let root_package := choose_root_package project_root
  match project_root.children.find? (fun c => c.name == root_package) with
  | some rp =>
      if rp.isDir then ⟨root_package, build_cluster_mappings rp⟩
      else ⟨root_package, [("", "Root")]⟩
  | none => ⟨root_package, [("", "Root")]⟩

/-- `ProjectAnalyzer.normalize_path` from `src/core/project_analyzer.py`,
applied to the path made relative to the project root (`os.path.relpath` and
`os.path.normpath` are the identity on the root-relative, already normal
paths this analysis produces; `os.sep` is `/`): collapse one duplicated
root-package directory level. -/
def normalize_path (root_package rel_path : String) : String :=
  match pySplit '/' rel_path with
  | p0 :: p1 :: rest =>
      if p0 = root_package ∧ p1 = root_package then pyJoin "/" (p1 :: rest)
      else rel_path
  | _ => rel_path

/-- The per-mapping test inside the loop of
`ProjectAnalyzer.get_cluster_for_file`: the empty prefix matches exactly the
entries directly inside the root package, a nonempty prefix matches the
directory itself or anything below it. -/
def prefixMatches (root_package prefKey rel_path : String) : Bool :=
  if prefKey = "" then
    rel_path == root_package ||
      (pyStarts rel_path (root_package ++ "/") &&
        !(pyContainsChar (pyDrop rel_path (pyLen root_package + 1)) '/'))
  else
    pyStarts rel_path (root_package ++ "/" ++ prefKey ++ "/") ||
      rel_path == root_package ++ "/" ++ prefKey

/-- The loop of `ProjectAnalyzer.get_cluster_for_file`: return the cluster of
the first mapping whose test succeeds, in dict insertion order, defaulting to
"Root". -/
def get_cluster_loop (root_package rel_path : String) :
    List (String × String) → String
  | [] => "Root"
  | (prefKey, cluster_name) :: rest =>
      if prefixMatches root_package prefKey rel_path then cluster_name
      else get_cluster_loop root_package rel_path rest

/-- `ProjectAnalyzer.get_cluster_for_file` from
`src/core/project_analyzer.py`. -/
def get_cluster_for_file (root_package : String)
    (cluster_mappings : List (String × String)) (file_path : String) : String :=
  get_cluster_loop root_package (normalize_path root_package file_path)
    cluster_mappings

/-! ### Generic helper lemmas on strings, lists and dicts -/

theorem str_ext {s t : String} (h : s.data = t.data) : s = t := by
  cases s; cases t; exact congrArg String.mk h

theorem str_data_append (s t : String) : (s ++ t).data = s.data ++ t.data := by
  cases s; cases t; rfl

theorem str_eq_empty_iff (s : String) : s = "" ↔ s.data = [] := by
  cases s
  constructor
  · intro h; simpa using congrArg String.data h
  · intro h; exact str_ext (by simpa using h)

theorem str_append_ne_empty_left (u v : String) (h : u ≠ "") : u ++ v ≠ "" := by
  intro he
  apply h
  have hd := congrArg String.data he
  rw [str_data_append] at hd
  have := List.append_eq_nil.mp (by simpa using hd)
  exact (str_eq_empty_iff u).mpr this.1

theorem str_append_left_cancel {u v w : String} (h : u ++ v = u ++ w) : v = w := by
  have hd := congrArg String.data h
  rw [str_data_append, str_data_append] at hd
  exact str_ext (List.append_cancel_left hd)

theorem pyJoin_foldl_ne_empty (sep : String) (as : List String) (acc : String)
    (h : acc ≠ "") : as.foldl (fun b x => b ++ sep ++ x) acc ≠ "" := by
  induction as generalizing acc with
  | nil => exact h
  | cons x xs ih =>
      exact ih _ (str_append_ne_empty_left _ _ (str_append_ne_empty_left _ _ h))

theorem pyJoin_ne_empty (sep a : String) (as : List String) (h : a ≠ "") :
    pyJoin sep (a :: as) ≠ "" :=
  pyJoin_foldl_ne_empty sep as a h

theorem pyJoin_append_last (sep m : String) (l : List String) (h : l ≠ []) :
    pyJoin sep (l ++ [m]) = pyJoin sep l ++ sep ++ m := by
  match l with
  | a :: as => simp [pyJoin, List.foldl_append]

/-- The star-skipping append loop of the no-module relative branch, as a
filter and a map. -/
theorem star_foldl_eq (g : String → String) (names : List String)
    (acc : List (String × List String)) :
    names.foldl (fun a n => if n = "*" then a else a ++ [(g n, [])]) acc =
      acc ++ (names.filter (fun n => n ≠ "*")).map (fun n => (g n, ([] : List String))) := by
  induction names generalizing acc with
  | nil => simp
  | cons n ns ih =>
      by_cases h : n = "*"
      · simp [h, ih]
      · simp [h, ih]

/-! ### C6, C7, C10: import extraction -/

/-- Claim C6: a relative from-import with N leading dots and an explicit
trailing module name (N at most the dotted depth of the importing module)
yields exactly one record, whose referenced name is the importing module
name with its last N components dropped and the explicit name appended, and
the non-wildcard imported symbols of the statement attach to that record.
The components of a dotted module name are nonempty. -/
theorem C6_relative_explicit_module (module_name : String) (node : ImportFromNode)
    (m : String) (hm : node.module = some m) (hpos : node.level > 0)
    (hle : node.level ≤ (pySplit '.' module_name).length)
    (hne : ∀ p ∈ pySplit '.' module_name, p ≠ "") :
    visit_ImportFrom module_name node =
      [(pyJoin "." ((pySplit '.' module_name).take
          ((pySplit '.' module_name).length - node.level) ++ [m]),
        node.names.filter (fun n => n ≠ "*"))] := by
  obtain ⟨nmod, names, level⟩ := node
  simp only at hm hpos hle ⊢
  subst hm
  simp only [visit_ImportFrom, hpos, hle, if_true, reduceCtorEq, false_and, if_false]
  generalize hl : List.take ((pySplit '.' module_name).length - level) (pySplit '.' module_name) = l
  by_cases hnil : l = []
  · subst hnil
    rw [if_neg (by simp [pyJoin])]
    simp [pyJoin]
  · obtain ⟨a, as, rfl⟩ : ∃ a as, l = a :: as := by
      cases l with
      | nil => exact absurd rfl hnil
      | cons a as => exact ⟨a, as, rfl⟩
    have ha : a ≠ "" := by
      apply hne
      exact List.take_subset _ _ (by rw [hl]; exact List.mem_cons_self a as)
    have hp : pyJoin "." (a :: as) ≠ "" := pyJoin_ne_empty "." a as ha
    rw [if_pos hp, pyJoin_append_last "." m (a :: as) (by simp)]

/-- Witness for C6, the example of the claim: module `pkg.sub.mod` with
reference `..other` resolves to the single record `("pkg.other", ["y"])`. -/
theorem C6_witness :
    ((0 : Nat) < 2 ∧ 2 ≤ (pySplit '.' "pkg.sub.mod").length) ∧
      visit_ImportFrom "pkg.sub.mod" ⟨some "other", ["y"], 2⟩ = [("pkg.other", ["y"])] := by
  refine ⟨⟨by decide, by decide⟩, ?_⟩
  have h := C6_relative_explicit_module "pkg.sub.mod" ⟨some "other", ["y"], 2⟩ "other"
    rfl (by decide) (by decide) (by decide)
  exact h.trans (by decide)

/-- Claim C7: a relative from-import with N leading dots, no explicit module
name and a list of symbols (N at most the dotted depth of the importing
module) yields one record per non-wildcard symbol: the importing module name
with its last N components dropped and the symbol appended (the symbol alone
when nothing is left), each with an empty symbol list; a wildcard entry
produces no record at all. -/
theorem C7_relative_no_module (module_name : String) (node : ImportFromNode)
    (hm : node.module = none) (hpos : node.level > 0)
    (hle : node.level ≤ (pySplit '.' module_name).length)
    (hne : ∀ p ∈ pySplit '.' module_name, p ≠ "") :
    visit_ImportFrom module_name node =
      (node.names.filter (fun n => n ≠ "*")).map
        (fun s => (pyJoin "." ((pySplit '.' module_name).take
            ((pySplit '.' module_name).length - node.level) ++ [s]), ([] : List String))) := by
  obtain ⟨nmod, names, level⟩ := node
  simp only at hm hpos hle ⊢
  subst hm
  simp only [visit_ImportFrom, hpos, hle, if_true, and_true, and_self, eq_self_iff_true, if_pos]
  generalize hl : List.take ((pySplit '.' module_name).length - level) (pySplit '.' module_name) = l
  by_cases hnil : l = []
  · subst hnil
    have hp : pyJoin "." ([] : List String) = "" := rfl
    simp only [hp, ne_eq, not_true_eq_false, if_false]
    rw [star_foldl_eq (fun n => n) names []]
    simp [pyJoin]
  · obtain ⟨a, as, rfl⟩ : ∃ a as, l = a :: as := by
      cases l with
      | nil => exact absurd rfl hnil
      | cons a as => exact ⟨a, as, rfl⟩
    have ha : a ≠ "" := by
      apply hne
      exact List.take_subset _ _ (by rw [hl]; exact List.mem_cons_self a as)
    have hp : pyJoin "." (a :: as) ≠ "" := pyJoin_ne_empty "." a as ha
    simp only [hp, ne_eq, not_false_eq_true, if_true]
    rw [star_foldl_eq (fun n => pyJoin "." (a :: as) ++ "." ++ n) names []]
    simp only [List.nil_append]
    apply List.map_congr_left
    intro x hx
    rw [pyJoin_append_last "." x (a :: as) (by simp)]

/-- Witness for C7, the example of the spec: module `pkg.sub.mod` with the
statement `from . import a, b, *` yields exactly the records for `pkg.sub.a`
and `pkg.sub.b`, and nothing for the wildcard. -/
theorem C7_witness :
    ((0 : Nat) < 1 ∧ 1 ≤ (pySplit '.' "pkg.sub.mod").length) ∧
      visit_ImportFrom "pkg.sub.mod" ⟨none, ["a", "b", "*"], 1⟩ =
        [("pkg.sub.a", []), ("pkg.sub.b", [])] := by
  refine ⟨⟨by decide, by decide⟩, ?_⟩
  have h := C7_relative_no_module "pkg.sub.mod" ⟨none, ["a", "b", "*"], 1⟩
    rfl (by decide) (by decide) (by decide)
  exact h.trans (by decide)

/-- Claim C10: a from-import whose number of leading dots exceeds the dotted
depth of the importing module produces no record at all, with or without an
explicit trailing module name. -/
theorem C10_deep_relative_dropped (module_name : String) (node : ImportFromNode)
    (h : (pySplit '.' module_name).length < node.level) :
    visit_ImportFrom module_name node = [] := by
  obtain ⟨nmod, names, level⟩ := node
  simp only at h ⊢
  have hnotle : ¬ (level ≤ (pySplit '.' module_name).length) := Nat.not_le.mpr h
  have hpos : level > 0 := by
    have := Nat.zero_le (pySplit '.' module_name).length
    omega
  cases nmod with
  | none => simp [visit_ImportFrom, hpos, hnotle]
  | some m => simp [visit_ImportFrom, hpos, hnotle]

/-- Witness for C10: module `a` (depth 1) with a 5-dot reference yields no
record, even with an explicit trailing name and named symbols. -/
theorem C10_witness :
    (pySplit '.' "a").length < 5 ∧
      visit_ImportFrom "a" ⟨some "b", ["x"], 5⟩ = [] :=
  ⟨by decide, C10_deep_relative_dropped "a" ⟨some "b", ["x"], 5⟩ (by decide)⟩

/-! ### C2: module equality -/

/-- Claim C2 counterexample: two `PythonModule` values with the same
`file_path` but different `module_name` are not equal under the dataclass
equality, so equality is not determined by `file_path` alone. -/
theorem C2_counterexample :
    pythonModuleEq ⟨"a.py", "m1", none, []⟩ ⟨"a.py", "m2", none, []⟩ = false ∧
      (PythonModule.mk "a.py" "m1" none []).file_path =
        (PythonModule.mk "a.py" "m2" none []).file_path := by decide

/-- Claim C2 amended: two `PythonModule` values are equal exactly when all
four fields (`file_path`, `module_name`, `cluster`, `imported_modules`)
agree; only the hash is keyed by `file_path` alone. -/
theorem C2_module_eq_all_fields (a b : PythonModule) :
    (pythonModuleEq a b = true ↔ a = b) ∧ pythonModuleHashKey a = a.file_path := by
  refine ⟨?_, rfl⟩
  cases a; cases b
  simp [pythonModuleEq, and_assoc]

/-! ### C5: import resolution -/

theorem pyMaxLen_cons (p x : String) (xs : List String) :
    pyMaxLen p (x :: xs) = pyMaxLen (if pyLen p < pyLen x then x else p) xs := rfl

theorem pyMaxLen_mem (p : String) (ps : List String) : pyMaxLen p ps ∈ p :: ps := by
  induction ps generalizing p with
  | nil => simp [pyMaxLen]
  | cons x xs ih =>
      rw [pyMaxLen_cons]
      have h := ih (if pyLen p < pyLen x then x else p)
      rcases List.mem_cons.mp h with h1 | h1
      · by_cases hc : pyLen p < pyLen x
        · rw [if_pos hc] at h1
          rw [if_pos hc, h1]
          exact List.mem_cons_of_mem _ (List.mem_cons_self x xs)
        · rw [if_neg hc] at h1
          rw [if_neg hc, h1]
          exact List.mem_cons_self p _
      · exact List.mem_cons_of_mem _ (List.mem_cons_of_mem _ h1)

theorem pyMaxLen_ge (p : String) (ps : List String) :
    ∀ x ∈ p :: ps, pyLen x ≤ pyLen (pyMaxLen p ps) := by
  induction ps generalizing p with
  | nil =>
      intro x hx
      simp only [List.mem_singleton] at hx
      subst hx
      simp [pyMaxLen]
  | cons y ys ih =>
      intro x hx
      rw [pyMaxLen_cons]
      have hstart_p : pyLen p ≤ pyLen (if pyLen p < pyLen y then y else p) := by
        by_cases hc : pyLen p < pyLen y
        · rw [if_pos hc]; exact Nat.le_of_lt hc
        · rw [if_neg hc]
      have hstart_y : pyLen y ≤ pyLen (if pyLen p < pyLen y then y else p) := by
        by_cases hc : pyLen p < pyLen y
        · rw [if_pos hc]
        · rw [if_neg hc]; exact Nat.le_of_not_lt hc
      have hmax := ih (if pyLen p < pyLen y then y else p)
      have hstart_le := hmax _ (List.mem_cons_self _ _)
      rcases List.mem_cons.mp hx with h | h
      · rw [h]; exact Nat.le_trans hstart_p hstart_le
      · rcases List.mem_cons.mp h with h2 | h2
        · rw [h2]; exact Nat.le_trans hstart_y hstart_le
        · exact hmax x (List.mem_cons_of_mem _ h2)

/-- Claim C5: import resolution is (a) exact match in the by-name index
first; (b) otherwise, among the registered names that extend the reference
after a dot or that the reference extends after a dot, a candidate of
maximal length is looked up; (c) with no candidate the result is no module
(silent discard). In particular, with registry names `pkg.a` and `pkg.a.b`,
the reference `pkg.a.b.c` resolves to the module registered as `pkg.a.b`. -/
theorem C5_resolve_longest_match :
    (∀ {α : Type} (reg : List (String × α)) (n : String),
        (∀ v, dictGet reg n = some v → resolve_import reg n = some v) ∧
        (dictGet reg n = none → possible_modules reg n = [] →
          resolve_import reg n = none) ∧
        (dictGet reg n = none → possible_modules reg n ≠ [] →
          ∃ k, k ∈ possible_modules reg n ∧
            (∀ k2 ∈ possible_modules reg n, pyLen k2 ≤ pyLen k) ∧
            resolve_import reg n = dictGet reg k)) ∧
      resolve_import [("pkg.a", 1), ("pkg.a.b", 2)] "pkg.a.b.c" = some 2 := by
  constructor
  · intro α reg n
    refine ⟨?_, ?_, ?_⟩
    · intro v hv; simp [resolve_import, hv]
    · intro h1 h2; simp [resolve_import, h1, h2]
    · intro h1 h2
      obtain ⟨p, ps, hp⟩ : ∃ p ps, possible_modules reg n = p :: ps := by
        cases hq : possible_modules reg n with
        | nil => exact absurd hq h2
        | cons p ps => exact ⟨p, ps, rfl⟩
      refine ⟨pyMaxLen p ps, ?_, ?_, ?_⟩
      · rw [hp]; exact pyMaxLen_mem p ps
      · intro k2 hk2; rw [hp] at hk2; exact pyMaxLen_ge p ps k2 hk2
      · simp [resolve_import, h1, hp]
  · decide

/-- Witness for C5: an exact hit in the by-name index is returned as is. -/
theorem C5_witness :
    resolve_import [("pkg.x", (5 : Nat))] "pkg.x" = some 5 :=
  (C5_resolve_longest_match.1 [("pkg.x", (5 : Nat))] "pkg.x").1 5 (by decide)

/-! ### C4: cluster assignment -/

/-- Claim C4 counterexample: with cluster mappings inserted in the order
`""`, `"a"`, `"a/b"`, the file `app/a/b/x.py` is assigned cluster `A` of the
mapping `a`, although the deeper mapping `a/b` (cluster `B`) also applies;
assignment is therefore not by deepest applicable prefix. -/
theorem C4_counterexample :
    get_cluster_for_file "app" [("", "Root"), ("a", "A"), ("a/b", "B")]
        "app/a/b/x.py" = "A" ∧
      prefixMatches "app" "a/b" (normalize_path "app" "app/a/b/x.py") = true ∧
      pyLen "a" < pyLen "a/b" ∧ ("A" : String) ≠ "B" := by decide

/-- Claim C4 amended: cluster assignment returns the cluster of the first
mapping in dict insertion order whose prefix test succeeds, defaulting to
Root; deeper mappings that appear later in the iteration are ignored. -/
theorem C4_first_match (root_package : String) (maps : List (String × String))
    (file_path : String) :
    get_cluster_for_file root_package maps file_path =
      ((maps.find? (fun kv =>
          prefixMatches root_package kv.1 (normalize_path root_package file_path))).map
        Prod.snd).getD "Root" := by
  unfold get_cluster_for_file
  generalize normalize_path root_package file_path = rel
  induction maps with
  | nil => rfl
  | cons kv rest ih =>
      obtain ⟨k, v⟩ := kv
      by_cases h : prefixMatches root_package k rel = true
      · simp [get_cluster_loop, List.find?_cons_of_pos, h]
      · rw [get_cluster_loop, if_neg (by simp [h]), ih,
          List.find?_cons_of_neg _ (by simpa using h)]

/-! ### Run model: characterization of the analysis pass -/

/-- The state of one registry module after one pass of `analyze_imports`:
on successful extraction `imported_modules` is overwritten, on failure the
module is untouched. -/
def updatedModule (src : String → Option (List (String × List String)))
    (m : PythonModule) : PythonModule :=
  match src m.file_path with
  | some recs => { m with imported_modules := recs }
  | none => m

/-- The dependencies one module contributes during `analyze_imports`, in
record order: one edge per raw import record that resolves in the registry. -/
def moduleDeps (src : String → Option (List (String × List String)))
    (module_by_name : List (String × String)) (m : PythonModule) :
    List Dependency :=
  match src m.file_path with
  | some recs =>
      recs.filterMap (fun ri =>
        (resolve_import module_by_name ri.1).map
          (fun target => ⟨m.file_path, target, ri.2⟩))
  | none => []

theorem depsFold_eq (module_by_name : List (String × String))
    (recs : List (String × List String)) (path : String) (ds : List Dependency) :
    recs.foldl
      (fun ds ri =>
        match resolve_import module_by_name ri.1 with
        | some target => setAdd ds ⟨path, target, ri.2⟩
        | none => ds) ds =
      (recs.filterMap (fun ri =>
        (resolve_import module_by_name ri.1).map
          (fun target => ⟨path, target, ri.2⟩))).foldl setAdd ds := by
  induction recs generalizing ds with
  | nil => rfl
  | cons r rs ih =>
      cases hr : resolve_import module_by_name r.1 with
      | none => simp [List.filterMap_cons, hr, ih]
      | some t => simp [List.filterMap_cons, hr, ih]

/-- One pass of `analyze_imports` updates every module independently and
folds the generated dependencies, module by module and record by record,
into the dependency set. -/
theorem analyze_imports_eq (src : String → Option (List (String × List String)))
    (module_by_name : List (String × String)) (ms : List PythonModule)
    (ds : List Dependency) :
    analyze_imports src module_by_name ms ds =
      (ms.map (updatedModule src),
        ((ms.map (moduleDeps src module_by_name)).flatten).foldl setAdd ds) := by
  induction ms generalizing ds with
  | nil => simp [analyze_imports]
  | cons m rest ih =>
      cases hs : src m.file_path with
      | none =>
          simp [analyze_imports, hs, ih, updatedModule, moduleDeps]
      | some recs =>
          simp only [analyze_imports, hs]
          rw [depsFold_eq module_by_name recs m.file_path ds, ih]
          simp [updatedModule, moduleDeps, hs, List.foldl_append]

theorem setAdd_mem_iff (ds : List Dependency) (x d : Dependency) :
    d ∈ setAdd ds x ↔ d ∈ ds ∨ d = x := by
  unfold setAdd
  by_cases h : x ∈ ds
  · rw [if_pos h]
    constructor
    · exact Or.inl
    · rintro (h1 | rfl)
      · exact h1
      · exact h
  · rw [if_neg h]
    simp

theorem mem_foldl_setAdd_of_mem (l : List Dependency) (ds : List Dependency)
    (d : Dependency) (h : d ∈ ds) : d ∈ l.foldl setAdd ds := by
  induction l generalizing ds with
  | nil => exact h
  | cons x xs ih => exact ih _ ((setAdd_mem_iff ds x d).mpr (Or.inl h))

theorem mem_foldl_setAdd_self (l : List Dependency) (ds : List Dependency) :
    ∀ d ∈ l, d ∈ l.foldl setAdd ds := by
  induction l generalizing ds with
  | nil => intro d hd; cases hd
  | cons x xs ih =>
      intro d hd
      rcases List.mem_cons.mp hd with h | h
      · exact mem_foldl_setAdd_of_mem xs _ d ((setAdd_mem_iff ds x d).mpr (Or.inr h))
      · exact ih _ d h

theorem foldl_setAdd_of_subset (l : List Dependency) (ds : List Dependency)
    (h : ∀ d ∈ l, d ∈ ds) : l.foldl setAdd ds = ds := by
  induction l with
  | nil => rfl
  | cons x xs ih =>
      have hx : setAdd ds x = ds := by
        unfold setAdd
        rw [if_pos (h x (List.mem_cons_self x xs))]
      rw [List.foldl_cons, hx]
      exact ih (fun d hd => h d (List.mem_cons_of_mem x hd))

theorem mem_foldl_setAdd_elim (l : List Dependency) (ds : List Dependency)
    (d : Dependency) (h : d ∈ l.foldl setAdd ds) : d ∈ ds ∨ d ∈ l := by
  induction l generalizing ds with
  | nil => exact Or.inl h
  | cons x xs ih =>
      rcases ih _ h with h1 | h1
      · rcases (setAdd_mem_iff ds x d).mp h1 with h2 | h2
        · exact Or.inl h2
        · exact Or.inr (h2 ▸ List.mem_cons_self x xs)
      · exact Or.inr (List.mem_cons_of_mem x h1)

theorem setAdd_nodup (ds : List Dependency) (x : Dependency) (h : ds.Nodup) :
    (setAdd ds x).Nodup := by
  unfold setAdd
  by_cases hx : x ∈ ds
  · rw [if_pos hx]; exact h
  · rw [if_neg hx]
    simp [List.nodup_append, h, hx]

theorem foldl_setAdd_nodup (l : List Dependency) (ds : List Dependency)
    (h : ds.Nodup) : (l.foldl setAdd ds).Nodup := by
  induction l generalizing ds with
  | nil => exact h
  | cons x xs ih => exact ih _ (setAdd_nodup ds x h)

theorem updatedModule_path (src : String → Option (List (String × List String)))
    (m : PythonModule) : (updatedModule src m).file_path = m.file_path := by
  unfold updatedModule
  cases src m.file_path <;> rfl

theorem updatedModule_idem (src : String → Option (List (String × List String)))
    (m : PythonModule) :
    updatedModule src (updatedModule src m) = updatedModule src m := by
  unfold updatedModule
  cases hs : src m.file_path with
  | none => simp [hs]
  | some recs => simp [hs]

theorem moduleDeps_path_eq (src : String → Option (List (String × List String)))
    (module_by_name : List (String × String)) (m1 m2 : PythonModule)
    (h : m1.file_path = m2.file_path) :
    moduleDeps src module_by_name m1 = moduleDeps src module_by_name m2 := by
  unfold moduleDeps
  rw [h]

theorem moduleDeps_source (src : String → Option (List (String × List String)))
    (module_by_name : List (String × String)) (m : PythonModule)
    (d : Dependency) (h : d ∈ moduleDeps src module_by_name m) :
    d.source_module = m.file_path := by
  unfold moduleDeps at h
  cases hs : src m.file_path with
  | none => rw [hs] at h; cases h
  | some recs =>
      rw [hs] at h
      obtain ⟨ri, _, hmap⟩ := List.mem_filterMap.mp h
      cases hr : resolve_import module_by_name ri.1 with
      | none => rw [hr] at hmap; cases hmap
      | some t =>
          rw [hr] at hmap
          cases Option.some.injEq _ _ ▸ hmap with
          | refl => rfl

/-! ### C1, C8, C9: the dependency set of an analysis run -/

/-- Extraction outcome of every module of this source, used by C1:
`analyze_imports` builds the visitor as `ImportVisitor(module.module_name)`
(line 149 of `src/core/project_analyzer.py`), but `ImportVisitor.__init__`
(line 9 of `src/include/import_visitor.py`) also requires a `logger`
argument with no default, so the construction raises `TypeError` inside the
per-module `try` and is swallowed by `except Exception`. No module's
extraction ever succeeds, whatever its file contains. -/
def srcC1 : String → Option (List (String × List String)) := fun _ => none

/-- Registry modules of the C1 counterexample: the file `a.py` contains
`from b import x` followed by `from b import y`, two raw imports between the
same two files with distinct symbol lists. -/
def modulesC1 : List PythonModule :=
  [⟨"a.py", "a", none, []⟩, ⟨"b.py", "b", none, []⟩]

/-- By-name index of the C1 counterexample. -/
def mbnC1 : List (String × String) := [("a", "a.py"), ("b", "b.py")]

/-- Claim C1 counterexample: the two statements of `a.py` are raw imports
between `a.py` and `b.py` (their extraction records would both resolve to
`b.py`), yet the analysis run records no dependency at all, because the
extraction step always fails with the swallowed `TypeError` described at
`srcC1`; the raw imports therefore do not collapse to a single edge between
the two files — the final dependency set is empty. -/
theorem C1_counterexample :
    visit_ImportFrom "a" ⟨some "b", ["x"], 0⟩ = [("b", ["x"])] ∧
      visit_ImportFrom "a" ⟨some "b", ["y"], 0⟩ = [("b", ["y"])] ∧
      resolve_import mbnC1 "b" = some "b.py" ∧
      (analyze_imports srcC1 mbnC1 modulesC1 []).2 = [] := by decide

/-- Claim C1 amended: in this source no analysis run records any dependency:
extraction fails for every module (the visitor call omits its required
logger argument and the resulting `TypeError` is swallowed per module), so
the pass returns the module list and the dependency set unchanged — started
empty, the set stays empty. In particular the path-pair hash never gets to
deduplicate anything, and multiple raw imports between the same two files
yield no edge at all rather than one collapsed edge. -/
theorem C1_no_dependencies_recorded (module_by_name : List (String × String))
    (ms : List PythonModule) (ds : List Dependency) :
    analyze_imports srcC1 module_by_name ms ds = (ms, ds) := by
  rw [analyze_imports_eq]
  have h1 : ms.map (updatedModule srcC1) = ms := by
    have he : ∀ m ∈ ms, updatedModule srcC1 m = id m := fun m _ => rfl
    rw [List.map_congr_left he, List.map_id]
  have h2 : ms.map (moduleDeps srcC1 module_by_name) =
      ms.map (fun _ => ([] : List Dependency)) :=
    List.map_congr_left (fun m _ => rfl)
  rw [h1, h2]
  have h3 : (ms.map (fun _ => ([] : List Dependency))).flatten = [] := by
    clear h1 h2
    induction ms with
    | nil => rfl
    | cons m rest ih =>
        simp only [List.map_cons, List.flatten_cons, List.nil_append]
        exact ih
  rw [h3]
  rfl

/-- Claim C8: the analysis pass is idempotent; running it again on the state
it produced (same extraction results, same name index) changes neither the
modules nor the dependency set. -/
theorem C8_idempotent (src : String → Option (List (String × List String)))
    (module_by_name : List (String × String)) (ms : List PythonModule)
    (ds : List Dependency) :
    analyze_imports src module_by_name
        (analyze_imports src module_by_name ms ds).1
        (analyze_imports src module_by_name ms ds).2 =
      analyze_imports src module_by_name ms ds := by
  rw [analyze_imports_eq src module_by_name ms ds]
  rw [analyze_imports_eq src module_by_name (ms.map (updatedModule src)) _]
  have hmods : (ms.map (updatedModule src)).map (updatedModule src) =
      ms.map (updatedModule src) := by
    rw [List.map_map]
    exact List.map_congr_left (fun a _ => updatedModule_idem src a)
  have hdeps : (ms.map (updatedModule src)).map (moduleDeps src module_by_name) =
      ms.map (moduleDeps src module_by_name) := by
    rw [List.map_map]
    exact List.map_congr_left (fun a _ =>
      moduleDeps_path_eq src module_by_name (updatedModule src a) a
        (updatedModule_path src a))
  rw [hmods, hdeps]
  rw [foldl_setAdd_of_subset _ _
    (fun d hd => mem_foldl_setAdd_self _ ds d hd)]

/-- Claim C9: a module whose source cannot be read or parsed is skipped
without aborting the run: the dependency set is the one of the run without
that module (in particular no dependency is recorded with that module as
source), while the module itself stays in the registry with its empty import
list, and all other modules are processed as usual. -/
theorem C9_parse_failure_isolated
    (src : String → Option (List (String × List String)))
    (module_by_name : List (String × String)) (ms1 ms2 : List PythonModule)
    (m : PythonModule) (ds : List Dependency)
    (hfail : src m.file_path = none)
    (hempty : m.imported_modules = [])
    (hdistinct : ∀ m2 ∈ ms1 ++ ms2, m2.file_path ≠ m.file_path) :
    (analyze_imports src module_by_name (ms1 ++ m :: ms2) ds).2 =
        (analyze_imports src module_by_name (ms1 ++ ms2) ds).2 ∧
      m ∈ (analyze_imports src module_by_name (ms1 ++ m :: ms2) ds).1 ∧
      m.imported_modules = [] ∧
      (∀ d ∈ (analyze_imports src module_by_name (ms1 ++ m :: ms2) ds).2,
        d ∉ ds → d.source_module ≠ m.file_path) := by
  have hupd : updatedModule src m = m := by unfold updatedModule; rw [hfail]
  have hmd : moduleDeps src module_by_name m = [] := by
    unfold moduleDeps; rw [hfail]
  rw [analyze_imports_eq, analyze_imports_eq]
  refine ⟨?_, ?_, hempty, ?_⟩
  · simp [List.map_append, hmd]
  · refine List.mem_map.mpr ⟨m, ?_, hupd⟩
    exact List.mem_append.mpr (Or.inr (List.mem_cons_self _ _))
  · intro d hd hnd
    rcases mem_foldl_setAdd_elim _ _ _ hd with h | h
    · exact absurd h hnd
    · obtain ⟨l, hl, hdl⟩ := List.mem_flatten.mp h
      obtain ⟨m2, hm2, rfl⟩ := List.mem_map.mp hl
      have hsrc := moduleDeps_source src module_by_name m2 d hdl
      rcases List.mem_append.mp hm2 with h1 | h1
      · rw [hsrc]; exact hdistinct m2 (List.mem_append.mpr (Or.inl h1))
      · rcases List.mem_cons.mp h1 with h2 | h2
        · rw [h2, hmd] at hdl; cases hdl
        · rw [hsrc]; exact hdistinct m2 (List.mem_append.mpr (Or.inr h2))

/-- Failing source of the C9 witness: nothing can be read. -/
def srcC9 : String → Option (List (String × List String)) := fun _ => none

/-- Module of the C9 witness. -/
def mC9 : PythonModule := ⟨"a.py", "a", none, []⟩

/-- Witness for C9 on a one-module registry whose only file fails to
parse. -/
theorem C9_witness :
    srcC9 mC9.file_path = none ∧
      ((analyze_imports srcC9 [] ([] ++ mC9 :: []) []).2 =
          (analyze_imports srcC9 [] ([] ++ []) []).2 ∧
        mC9 ∈ (analyze_imports srcC9 [] ([] ++ mC9 :: []) []).1 ∧
        mC9.imported_modules = [] ∧
        (∀ d ∈ (analyze_imports srcC9 [] ([] ++ mC9 :: []) []).2,
          d ∉ ([] : List Dependency) → d.source_module ≠ mC9.file_path)) :=
  ⟨rfl, C9_parse_failure_isolated srcC9 [] [] [] mC9 [] rfl rfl (by simp)⟩

/-! ### C3: topology auto-detection -/

theorem compound_data (a b : String) : (a ++ "/" ++ b).data = a.data ++ '/' :: b.data := by
  rw [str_data_append, str_data_append]
  have h : ("/" : String).data = ['/'] := rfl
  rw [h]
  simp

theorem slash_mem_compound (a b : String) : '/' ∈ (a ++ "/" ++ b).data := by
  rw [compound_data]
  simp

theorem ne_of_slashfree (s t u : String) (hs : '/' ∉ s.data) : s ≠ t ++ "/" ++ u := by
  intro h
  rw [h] at hs
  exact hs (slash_mem_compound t u)

theorem slashfree_split_aux (xs : List Char) :
    ∀ (ys u v : List Char), '/' ∉ xs → '/' ∉ ys →
      xs ++ '/' :: u = ys ++ '/' :: v → xs = ys ∧ u = v := by
  induction xs with
  | nil =>
      intro ys u v hx hy h
      cases ys with
      | nil => simpa using h
      | cons y ys2 =>
          injection h with h1 h2
          exact absurd (h1 ▸ List.mem_cons_self y ys2) hy
  | cons x xs2 ih =>
      intro ys u v hx hy h
      cases ys with
      | nil =>
          injection h with h1 h2
          exact absurd (h1 ▸ List.mem_cons_self x xs2) hx
      | cons y ys2 =>
          injection h with h1 h2
          have hx2 : '/' ∉ xs2 := fun hm => hx (List.mem_cons_of_mem x hm)
          have hy2 : '/' ∉ ys2 := fun hm => hy (List.mem_cons_of_mem y hm)
          obtain ⟨ha, hb⟩ := ih ys2 u v hx2 hy2 h2
          exact ⟨by rw [h1, ha], hb⟩

theorem compound_left_injective (a c b d : String) (ha : '/' ∉ a.data)
    (hc : '/' ∉ c.data) (h : a ++ "/" ++ b = c ++ "/" ++ d) : a = c := by
  have hd := congrArg String.data h
  rw [compound_data, compound_data] at hd
  exact str_ext (slashfree_split_aux a.data c.data b.data d.data ha hc hd).1

theorem dictInsert_mem_self (d : List (String × String)) (k v : String) :
    (k, v) ∈ dictInsert d k v := by
  unfold dictInsert
  by_cases h : d.any (fun kv => kv.1 == k)
  · rw [if_pos h]
    obtain ⟨kv, hkv, hb⟩ := List.any_eq_true.mp h
    refine List.mem_map.mpr ⟨kv, hkv, ?_⟩
    rw [if_pos hb]
  · rw [if_neg h]
    simp

theorem mem_dictInsert_ne (d : List (String × String)) (k v k2 v2 : String)
    (hne : k2 ≠ k) : ((k2, v2) ∈ dictInsert d k v) ↔ (k2, v2) ∈ d := by
  unfold dictInsert
  by_cases h : d.any (fun kv => kv.1 == k)
  · rw [if_pos h]
    constructor
    · intro hm
      obtain ⟨kv, hkv, heq⟩ := List.mem_map.mp hm
      by_cases hb : (kv.1 == k) = true
      · rw [if_pos hb] at heq
        have := (Prod.mk.injEq _ _ _ _).mp heq
        exact absurd this.1.symm hne
      · rw [if_neg hb] at heq
        exact heq ▸ hkv
    · intro hm
      refine List.mem_map.mpr ⟨(k2, v2), hm, ?_⟩
      rw [if_neg (by simpa using hne)]
  · rw [if_neg h]
    simp [hne]

theorem mem_dictInsert_elim (d : List (String × String)) (k v : String)
    (kv2 : String × String) (h : kv2 ∈ dictInsert d k v) : kv2 ∈ d ∨ kv2 = (k, v) := by
  unfold dictInsert at h
  by_cases ha : d.any (fun kv => kv.1 == k)
  · rw [if_pos ha] at h
    obtain ⟨kv, hkv, heq⟩ := List.mem_map.mp h
    by_cases hb : (kv.1 == k) = true
    · rw [if_pos hb] at heq
      exact Or.inr heq.symm
    · rw [if_neg hb] at heq
      exact Or.inl (heq ▸ hkv)
  · rw [if_neg ha] at h
    rcases List.mem_append.mp h with h1 | h1
    · exact Or.inl h1
    · exact Or.inr (List.mem_singleton.mp h1)

theorem servicesFold_preserve (nm : String) (l : List FSTree)
    (acc : List (String × String)) (k2 v2 : String)
    (hmem : (k2, v2) ∈ acc) (hfresh : ∀ s : FSTree, nm ++ "/" ++ s.name ≠ k2) :
    (k2, v2) ∈ l.foldl (servicesStep nm) acc := by
  induction l generalizing acc with
  | nil => exact hmem
  | cons s ss ih =>
      apply ih
      unfold servicesStep
      by_cases hc : (s.isDir && hasInitFile s) = true
      · rw [if_pos hc]
        exact (mem_dictInsert_ne acc _ _ k2 v2 (fun h => hfresh s h.symm)).mpr hmem
      · rw [if_neg hc]
        exact hmem

theorem servicesFold_preserve_canonical (nm x : String) (l : List FSTree)
    (acc : List (String × String))
    (hmem : (nm ++ "/" ++ x, pyUpper x) ∈ acc) :
    (nm ++ "/" ++ x, pyUpper x) ∈ l.foldl (servicesStep nm) acc := by
  induction l generalizing acc with
  | nil => exact hmem
  | cons s ss ih =>
      apply ih
      unfold servicesStep
      by_cases hc : (s.isDir && hasInitFile s) = true
      · rw [if_pos hc]
        by_cases hk : nm ++ "/" ++ s.name = nm ++ "/" ++ x
        · have hx : s.name = x := str_append_left_cancel hk
          rw [hx]
          exact dictInsert_mem_self _ _ _
        · exact (mem_dictInsert_ne acc _ _ _ _ (fun h => hk h.symm)).mpr hmem
      · rw [if_neg hc]
        exact hmem

theorem servicesFold_insert (nm : String) (l : List FSTree) (s : FSTree)
    (acc : List (String × String)) (hs : s ∈ l) (hdir : s.isDir = true)
    (hinit : hasInitFile s = true) :
    (nm ++ "/" ++ s.name, pyUpper s.name) ∈ l.foldl (servicesStep nm) acc := by
  obtain ⟨u, w, rfl⟩ := List.append_of_mem hs
  rw [List.foldl_append, List.foldl_cons]
  apply servicesFold_preserve_canonical
  unfold servicesStep
  rw [if_pos (by rw [hdir, hinit]; rfl)]
  exact dictInsert_mem_self _ _ _

theorem clusterStep_preserve (acc : List (String × String)) (item : FSTree)
    (k2 v2 : String) (hmem : (k2, v2) ∈ acc)
    (h1 : item.name ≠ k2)
    (h2 : ∀ s : FSTree, item.name ++ "/" ++ s.name ≠ k2) :
    (k2, v2) ∈ clusterStep acc item := by
  unfold clusterStep
  by_cases hc : (item.isDir && hasInitFile item) = true
  · rw [if_pos hc]
    by_cases hu : pyStarts item.name "_" = true
    · rw [if_pos hu]
      exact (mem_dictInsert_ne acc _ _ k2 v2 (fun h => h1 h.symm)).mpr hmem
    · rw [if_neg hu]
      by_cases hsvc : item.name = "services" ∨ item.name = "_services"
      · rw [if_pos hsvc]
        exact servicesFold_preserve item.name item.children acc k2 v2 hmem h2
      · rw [if_neg hsvc]
        exact hmem
  · rw [if_neg hc]
    exact hmem

theorem clusterFold_preserve (l : List FSTree) (acc : List (String × String))
    (k2 v2 : String) (hmem : (k2, v2) ∈ acc)
    (h : ∀ item ∈ l, item.name ≠ k2 ∧ ∀ s : FSTree, item.name ++ "/" ++ s.name ≠ k2) :
    (k2, v2) ∈ l.foldl clusterStep acc := by
  induction l generalizing acc with
  | nil => exact hmem
  | cons item rest ih =>
      apply ih
      · exact clusterStep_preserve acc item k2 v2 hmem
          (h item (List.mem_cons_self _ _)).1 (h item (List.mem_cons_self _ _)).2
      · intro it hit
        exact h it (List.mem_cons_of_mem _ hit)

theorem servicesFold_elim (nm : String) (l : List FSTree)
    (acc : List (String × String)) (kv : String × String)
    (h : kv ∈ l.foldl (servicesStep nm) acc) :
    kv ∈ acc ∨ ∃ s ∈ l, kv = (nm ++ "/" ++ s.name, pyUpper s.name) := by
  induction l generalizing acc with
  | nil => exact Or.inl h
  | cons s ss ih =>
      rcases ih _ h with h1 | h1
      · unfold servicesStep at h1
        by_cases hc : (s.isDir && hasInitFile s) = true
        · rw [if_pos hc] at h1
          rcases mem_dictInsert_elim _ _ _ _ h1 with h2 | h2
          · exact Or.inl h2
          · exact Or.inr ⟨s, List.mem_cons_self _ _, h2⟩
        · rw [if_neg hc] at h1
          exact Or.inl h1
      · obtain ⟨s2, hs2, he⟩ := h1
        exact Or.inr ⟨s2, List.mem_cons_of_mem _ hs2, he⟩

theorem clusterStep_elim (acc : List (String × String)) (item : FSTree)
    (kv : String × String) (h : kv ∈ clusterStep acc item) :
    kv ∈ acc ∨
      (pyStarts item.name "_" = true ∧
        kv = (item.name, pyCapitalize (pyDrop item.name 1))) ∨
      (item.name = "services" ∧
        ∃ s ∈ item.children, kv = (item.name ++ "/" ++ s.name, pyUpper s.name)) := by
  unfold clusterStep at h
  by_cases hc : (item.isDir && hasInitFile item) = true
  · rw [if_pos hc] at h
    by_cases hu : pyStarts item.name "_" = true
    · rw [if_pos hu] at h
      rcases mem_dictInsert_elim _ _ _ _ h with h1 | h1
      · exact Or.inl h1
      · exact Or.inr (Or.inl ⟨hu, h1⟩)
    · rw [if_neg hu] at h
      by_cases hsvc : item.name = "services" ∨ item.name = "_services"
      · rw [if_pos hsvc] at h
        rcases servicesFold_elim _ _ _ _ h with h1 | h1
        · exact Or.inl h1
        · refine Or.inr (Or.inr ⟨?_, h1⟩)
          rcases hsvc with he | he
          · exact he
          · rw [he] at hu
            exact absurd (by decide) hu
      · rw [if_neg hsvc] at h
        exact Or.inl h
  · rw [if_neg hc] at h
    exact Or.inl h

theorem clusterFold_elim (l : List FSTree) (acc : List (String × String))
    (kv : String × String) (h : kv ∈ l.foldl clusterStep acc) :
    kv ∈ acc ∨ ∃ item ∈ l,
      (pyStarts item.name "_" = true ∧
        kv = (item.name, pyCapitalize (pyDrop item.name 1))) ∨
      (item.name = "services" ∧
        ∃ s ∈ item.children, kv = (item.name ++ "/" ++ s.name, pyUpper s.name)) := by
  induction l generalizing acc with
  | nil => exact Or.inl h
  | cons item rest ih =>
      rcases ih _ h with h1 | h1
      · rcases clusterStep_elim _ _ _ h1 with h2 | h2 | h2
        · exact Or.inl h2
        · exact Or.inr ⟨item, List.mem_cons_self _ _, Or.inl h2⟩
        · exact Or.inr ⟨item, List.mem_cons_self _ _, Or.inr h2⟩
      · obtain ⟨it, hit, hp⟩ := h1
        exact Or.inr ⟨it, List.mem_cons_of_mem _ hit, hp⟩

theorem nodup_name_notin (u w : List FSTree) (item : FSTree)
    (hnodup : (((u ++ item :: w)).map FSTree.name).Nodup) :
    ∀ it ∈ w, it.name ≠ item.name := by
  intro it hit he
  rw [List.map_append, List.map_cons] at hnodup
  have h2 := (List.nodup_append.mp hnodup).2.1
  have h3 := (List.nodup_cons.mp h2).1
  exact h3 (he ▸ List.mem_map_of_mem FSTree.name hit)

/-- Claim C3 amended: during cluster inference, only a subdirectory literally
named `services` is expanded: each of its initializer-bearing subdirectories
becomes a cluster keyed by the compound prefix and named by upper-casing its
name, and no cluster is ever keyed `services` itself. A subdirectory named
`_services` is caught by the underscore rule first: it becomes a single
cluster keyed `_services` named `Services`, and no cluster key ever extends
`_services` with a slash-separated component. Directory names are assumed
distinct and slash-free, as a filesystem guarantees. -/
theorem C3_services_expansion (rp : FSTree) (item : FSTree)
    (hmem : item ∈ rp.children) (hdir : item.isDir = true)
    (hinit : hasInitFile item = true)
    (hnodup : (rp.children.map FSTree.name).Nodup)
    (hslash : ∀ c ∈ rp.children, '/' ∉ c.name.data) :
    (item.name = "services" →
      ∀ service ∈ item.children, service.isDir = true → hasInitFile service = true →
        (item.name ++ "/" ++ service.name, pyUpper service.name) ∈
          build_cluster_mappings rp) ∧
    (∀ kv ∈ build_cluster_mappings rp, kv.1 ≠ "services") ∧
    (item.name = "_services" → ("_services", "Services") ∈ build_cluster_mappings rp) ∧
    (∀ kv ∈ build_cluster_mappings rp, ∀ t : String, kv.1 ≠ "_services/" ++ t) := by
  obtain ⟨u, w, hch⟩ := List.append_of_mem hmem
  have hslash_item : '/' ∉ item.name.data := hslash item hmem
  have hw_sub : ∀ it ∈ w, it ∈ rp.children := by
    intro it hit
    rw [hch]
    exact List.mem_append.mpr (Or.inr (List.mem_cons_of_mem _ hit))
  have hw_name : ∀ it ∈ w, it.name ≠ item.name := by
    rw [hch] at hnodup
    exact nodup_name_notin u w item hnodup
  refine ⟨?_, ?_, ?_, ?_⟩
  · -- services expansion
    intro hname service hsvc hsd hsi
    unfold build_cluster_mappings
    rw [hch, List.foldl_append, List.foldl_cons]
    apply clusterFold_preserve
    · -- insertion happens at the step for item
      unfold clusterStep
      rw [if_pos (by rw [hdir, hinit]; rfl)]
      rw [if_neg (by rw [hname]; decide), if_pos (Or.inl hname)]
      exact servicesFold_insert item.name item.children service _ hsvc hsd hsi
    · intro it hit
      have hsl_it : '/' ∉ it.name.data := hslash it (hw_sub it hit)
      constructor
      · exact ne_of_slashfree it.name item.name service.name hsl_it
      · intro s he
        have := compound_left_injective it.name item.name s.name service.name
          hsl_it hslash_item he
        exact hw_name it hit this
  · -- no mapping is keyed "services"
    intro kv hkv
    rcases clusterFold_elim _ _ _ hkv with h1 | h1
    · rw [List.mem_singleton] at h1
      rw [h1]
      decide
    · obtain ⟨it, hit, hp | hp⟩ := h1
      · obtain ⟨hu, he⟩ := hp
        rw [he]
        intro hc
        simp only at hc
        rw [hc] at hu
        exact absurd hu (by decide)
      · obtain ⟨hsvc, s, hs, he⟩ := hp
        rw [he]
        intro hc
        simp only at hc
        have := hc ▸ slash_mem_compound it.name s.name
        exact absurd this (by decide)
  · -- a directory named _services is itself a cluster named Services
    intro hname
    unfold build_cluster_mappings
    rw [hch, List.foldl_append, List.foldl_cons]
    apply clusterFold_preserve
    · unfold clusterStep
      rw [if_pos (by rw [hdir, hinit]; rfl)]
      rw [if_pos (by rw [hname]; decide)]
      rw [hname]
      have hcap : pyCapitalize (pyDrop "_services" 1) = "Services" := by decide
      rw [hcap]
      exact dictInsert_mem_self _ _ _
    · intro it hit
      constructor
      · rw [← hname]
        exact hw_name it hit
      · intro s he
        have := he ▸ slash_mem_compound it.name s.name
        exact absurd this (by decide)
  · -- no mapping key extends _services with a slash
    intro kv hkv t
    rcases clusterFold_elim _ _ _ hkv with h1 | h1
    · rw [List.mem_singleton] at h1
      rw [h1]
      intro hc
      simp only at hc
      have hd := congrArg String.data hc
      rw [str_data_append] at hd
      have hnil : ("" : String).data = [] := rfl
      rw [hnil] at hd
      have h2 := List.append_eq_nil.mp hd.symm
      exact absurd h2.1 (by decide)
    · obtain ⟨it, hit, hp | hp⟩ := h1
      · obtain ⟨hu, he⟩ := hp
        rw [he]
        intro hc
        simp only at hc
        apply hslash it hit
        rw [hc, str_data_append]
        exact List.mem_append.mpr (Or.inl (by decide))
      · obtain ⟨hsvc, s, hs, he⟩ := hp
        rw [he]
        intro hc
        simp only at hc
        have hre : ("_services/" : String) ++ t = "_services" ++ "/" ++ t := by
          apply str_ext
          rw [str_data_append, str_data_append, str_data_append]
          have hx : ("_services/" : String).data =
              ("_services" : String).data ++ ("/" : String).data := by decide
          rw [hx, List.append_assoc]
        rw [hre] at hc
        have heq : it.name = "_services" :=
          compound_left_injective it.name "_services" s.name t
            (hslash it hit) (by decide) hc
        rw [hsvc] at heq
        exact absurd heq (by decide)


/-- Project tree of the C3 counterexample: the root package `app` contains a
`_services` package which itself contains an `auth` package. -/
def fsC3 : FSTree :=
  .dir "proj" [.dir "app" [.file "__init__.py",
    .dir "_services" [.file "__init__.py", .dir "auth" [.file "__init__.py"]]]]

/-- Claim C3 counterexample: on `fsC3` the detector registers the
`_services` directory itself as a cluster (named `Services` by the
underscore rule) and creates no cluster for its `auth` subdirectory, contrary
to the claimed expansion of `_services`. -/
theorem C3_counterexample :
    ("_services", "Services") ∈ (detect_project_structure fsC3).cluster_mappings ∧
      ((detect_project_structure fsC3).cluster_mappings.all
        (fun kv => kv.1 != "_services/auth")) = true := by decide

/-- Root package of the C3 witness: `app` with a literal `services`
directory holding one service package `auth`. -/
def servicesDirC3 : FSTree :=
  .dir "services" [.file "__init__.py", .dir "auth" [.file "__init__.py"]]

/-- Root package tree of the C3 witness. -/
def rpC3 : FSTree := .dir "app" [.file "__init__.py", servicesDirC3]

/-- Witness for the amended C3: the `auth` subdirectory of a literal
`services` directory becomes the cluster `("services/auth", "AUTH")`. -/
theorem C3_witness :
    hasInitFile servicesDirC3 = true ∧
      ("services/auth", "AUTH") ∈ build_cluster_mappings rpC3 := by
  refine ⟨by decide, ?_⟩
  have h := (C3_services_expansion rpC3 servicesDirC3
      (List.Mem.tail _ (List.Mem.head _)) rfl (by decide) (by decide) (by decide)).1
    rfl (.dir "auth" [.file "__init__.py"]) (List.Mem.tail _ (List.Mem.head _))
    rfl (by decide)
  have he : (("services/auth", "AUTH") : String × String) =
      (servicesDirC3.name ++ "/" ++ (FSTree.dir "auth" [.file "__init__.py"]).name,
        pyUpper (FSTree.dir "auth" [.file "__init__.py"]).name) := by decide
  rw [he]
  exact h
